import Mathlib

/-!
Verification of the `ai-article` content-rewriting pipeline (`src/index.js`).

The JavaScript source is shallowly embedded: strings are `String`/`List Char`,
the regular expressions used by the code are modelled by explicit leftmost-match
scanners, network calls are represented by `Except`-valued oracles supplied by
the environment, and the `main` workflow becomes a pure function from those
oracles to the trace of collaborator invocations plus the final outcome.
-/

namespace AiArticle

/-! ## Character classes and basic scanning helpers -/

/-- JavaScript `\s` (restricted to the ASCII whitespace characters relevant to
this code base). -/
def isWS (c : Char) : Bool :=
  c == ' ' || c == '\t' || c == '\n' || c == '\r' || c == '\x0b' || c == '\x0c'

/-- JavaScript `.` in a regex without the `s` flag: any char except a line
terminator. -/
def notNL (c : Char) : Bool :=
  c != '\n' && c != '\r'

/-- Case-insensitive "pattern is a prefix of text" (regex `/i` flag). -/
def isPrefixCI : List Char → List Char → Bool
  | [], _ => true
  | _ :: _, [] => false
  | p :: ps, c :: cs => (p.toLower == c.toLower) && isPrefixCI ps cs

/-- Case-sensitive "pattern is a prefix of text" (JS `String.includes`). -/
def isPrefixCS : List Char → List Char → Bool
  | [], _ => true
  | _ :: _, [] => false
  | p :: ps, c :: cs => (p == c) && isPrefixCS ps cs

/-- Case-sensitive substring test, as JS `text.includes(pat)`. -/
def hasSubCS (pat : List Char) : List Char → Bool
  | [] => pat.isEmpty
  | c :: cs => isPrefixCS pat (c :: cs) || hasSubCS pat cs

/-- The text remaining after the leftmost case-insensitive occurrence of
`pat`; `none` when `pat` does not occur.  This models where a regex of the
form `/pat.../i` anchors its match. -/
def restAfterCI (pat : List Char) : List Char → Option (List Char)
  | [] => if isPrefixCI pat [] then some [] else none
  | c :: cs =>
    if isPrefixCI pat (c :: cs) then some ((c :: cs).drop pat.length)
    else restAfterCI pat cs

/-- Case-insensitive substring test (does the marker occur at all?). -/
def hasSubCI (pat text : List Char) : Bool :=
  (restAfterCI pat text).isSome

/-- Capture of `/pat\s*(.*)/i`: skip whitespace after the marker, take the
rest of the line. -/
def matchLine (pat text : List Char) : Option (List Char) :=
  (restAfterCI pat text).map fun r => (r.dropWhile isWS).takeWhile notNL

/-- Capture of `/pat\s*([\s\S]*)/i`: skip whitespace after the marker, take
everything remaining. -/
def matchAll (pat text : List Char) : Option (List Char) :=
  (restAfterCI pat text).map fun r => r.dropWhile isWS

/-- JS `m?.[1] || dflt`: the captured group unless the match failed or the
capture is the (falsy) empty string. -/
def orDefault (o : Option (List Char)) (dflt : List Char) : List Char :=
  match o with
  | some l => if l = [] then dflt else l
  | none => dflt

/-- Collapse every whitespace run to a single space: JS
`replace(/\s+/g, " ")`. -/
def collapseWS : List Char → List Char
  | [] => []
  | [c] => if isWS c then [' '] else [c]
  | a :: b :: l =>
    if isWS a && isWS b then collapseWS (b :: l)
    else (if isWS a then ' ' else a) :: collapseWS (b :: l)

/-- Remove trailing whitespace (the right half of JS `trim()`). -/
def dropTrailingWS : List Char → List Char
  | [] => []
  | a :: l =>
    match dropTrailingWS l with
    | [] => if isWS a then [] else [a]
    | b :: r => a :: b :: r

/-- JS `String.prototype.trim`. -/
def trimWS (l : List Char) : List Char :=
  dropTrailingWS (l.dropWhile isWS)

/-- Skip up to and including the first `'>'`, if any (the `[^>]*>` part of a
tag pattern). -/
def dropThroughGt : List Char → Option (List Char)
  | [] => none
  | c :: cs => if c = '>' then some cs else dropThroughGt cs

/-- Fuel-indexed worker for `stripTags`. -/
def stripTagsF : Nat → List Char → List Char
  | 0, cs => cs
  | _ + 1, [] => []
  | n + 1, c :: cs =>
    if c = '<' then
      match dropThroughGt cs with
      | some rest => stripTagsF n rest
      | none => c :: stripTagsF n cs
    else c :: stripTagsF n cs

/-- JS `replace(/<[^>]*>/g, "")`: drop every `<...>` tag; a `'<'` with no
later `'>'` is kept verbatim.  `length` fuel always suffices because each
step consumes at least one character. -/
def stripTags (l : List Char) : List Char :=
  stripTagsF l.length l

/-- No two consecutive whitespace characters anywhere in the list. -/
def noWSRun : List Char → Bool
  | [] => true
  | [_] => true
  | a :: b :: l => !(isWS a && isWS b) && noWSRun (b :: l)

/-! ## LinkFilter (`isValidBlogLink`) -/

/-- `isValidBlogLink` from `src/index.js`: deny-list on URL substrings. -/
def isValidBlogLink (url : String) : Bool :=
  !(hasSubCS "wikipedia.org".data url.data) &&
  !(hasSubCS "beyondchats.com".data url.data) &&
  !(hasSubCS "youtube.com".data url.data) &&
  !(hasSubCS "facebook.com".data url.data) &&
  !(hasSubCS "linkedin.com".data url.data)

/-! ## ReferenceCollector (`googleSearch`) -/

/-- One Serper.dev organic search result, exposing its `link` field. -/
structure SearchResult where
  link : String
deriving DecidableEq

/-- `googleSearch` from `src/index.js`, as a function of the search
collaborator's outcome: on error return `[]`; on success map to links,
filter through the link filter, and keep the first 2 in provider order. -/
def googleSearch (res : Except String (List SearchResult)) : List String :=
  match res with
  | .error _ => []
  | .ok organic => (((organic.map fun r => r.link).filter isValidBlogLink).take 2)

/-! ## ContentScraper (`scrapeArticle`) -/

/-- `text.replace(/\s+/g, " ").trim().slice(0, 4000)` from `scrapeArticle`. -/
def scrapeClean (s : String) : String :=
  String.mk ((trimWS (collapseWS s.data)).take 4000)

/-- `$("article").text() || $("main").text() || $("body").text()`: first
non-empty of the three extracted texts (JS `||` on strings). -/
def pickText (a m b : String) : String :=
  if a ≠ "" then a else if m ≠ "" then m else b

/-- `scrapeArticle` from `src/index.js`, as a function of the fetch
collaborator's outcome.  A fetched document is represented by the triple of
texts cheerio extracts for `article`/`main`/`body`.  The JS `catch` branch
returns `""`; totality of this function models "never raises". -/
def scrapeArticle (res : Except String (String × String × String)) : String :=
  match res with
  | .error _ => ""
  | .ok (a, m, b) => scrapeClean (pickText a m b)

/-! ## Rewriter (`rewriteWithAI`) -/

/-- The structured result parsed out of the model's free-text response. -/
structure RewriteResult where
  title : String
  description : String
  content : String
deriving DecidableEq

/-- Fallback when `TITLE:` is unmatched (or its capture is empty). -/
def defaultTitle : String := "New Efficiency Insights"

/-- Fallback when `DESCRIPTION:` is unmatched (or its capture is empty). -/
def defaultDescription : String := "Learn how to optimize service platforms."

/-- The response-parsing part of `rewriteWithAI`:
`text.match(/TITLE:\s*(.*)/i)?.[1] || dflt` and friends. -/
def rewriteParse (text : String) : RewriteResult :=
  { title := String.mk (orDefault (matchLine "title:".data text.data) defaultTitle.data)
    description := String.mk
      (orDefault (matchLine "description:".data text.data) defaultDescription.data)
    content := String.mk (orDefault (matchAll "content:".data text.data) text.data) }

/-- The chat-completion request `rewriteWithAI` sends to the inference
collaborator (model id, two messages, token budget). -/
structure ChatRequest where
  model : String
  system : String
  user : String
  maxTokens : Nat
deriving DecidableEq

/-- The fixed system instruction from `src/index.js`. -/
def systemInstruction : String :=
  "You are an SEO Expert. Return your response in this exact format:\nTITLE: [New Unique Related Title]\nDESCRIPTION: [New SEO Description]\nCONTENT: [The HTML Article]"

/-- The request built by `rewriteWithAI original refs urls`: note that, as in
the source, the scraped reference texts `refs` are received but do not occur
anywhere in the request — only the first 800 characters of the original and
the comma-joined URLs do. -/
def rewriteRequest (original : String) (refs urls : List String) : ChatRequest :=
  { model := "meta-llama/Llama-3.2-3B-Instruct"
    system := systemInstruction
    user := "Rewrite this: " ++ original.take 800 ++ ". Refs: " ++ String.intercalate ", " urls
    maxTokens := 1500 }

/-- `rewriteWithAI` from `src/index.js`, as a function of the inference
collaborator `llm`: on an inference error return `null` (`none`); otherwise
parse the response text. -/
def rewriteWithAI (original : String) (refs urls : List String)
    (llm : ChatRequest → Except String String) : Option RewriteResult :=
  match llm (rewriteRequest original refs urls) with
  | .error _ => none
  | .ok text => some (rewriteParse text)

/-! ## MetadataExtractor and `publishArticle` -/

/-- Try to match `/<h[1-2][^>]*>/i` at the current position; on success
return the text after the opening tag's `'>'`. -/
def hOpenRest (l : List Char) : Option (List Char) :=
  if isPrefixCI "<h1".data l || isPrefixCI "<h2".data l then dropThroughGt (l.drop 3)
  else none

/-- Lazy capture `([\s\S]*?)` up to the first `</h1>` or `</h2>`
(case-insensitive); `none` when no closing tag follows. -/
def hCloseCapture : List Char → Option (List Char)
  | [] => none
  | c :: cs =>
    if isPrefixCI "</h1>".data (c :: cs) || isPrefixCI "</h2>".data (c :: cs) then some []
    else (hCloseCapture cs).map fun cap => c :: cap

/-- One attempt of the heading regex at the current position. -/
def hTryAt (l : List Char) : Option (List Char) :=
  match hOpenRest l with
  | none => none
  | some rest => hCloseCapture rest

/-- Leftmost match of `/<h[1-2][^>]*>([\s\S]*?)<\/h[1-2]>/i`: the captured
group, or `none`. -/
def hMatchFrom : List Char → Option (List Char)
  | [] => none
  | c :: cs =>
    match hTryAt (c :: cs) with
    | some cap => some cap
    | none => hMatchFrom cs

/-- Try to match `/<p[^>]*>/i` at the current position. -/
def pOpenRest (l : List Char) : Option (List Char) :=
  if isPrefixCI "<p".data l then dropThroughGt (l.drop 2) else none

/-- Lazy capture up to the first `</p>` (case-insensitive). -/
def pCloseCapture : List Char → Option (List Char)
  | [] => none
  | c :: cs =>
    if isPrefixCI "</p>".data (c :: cs) then some []
    else (pCloseCapture cs).map fun cap => c :: cap

/-- One attempt of the paragraph regex at the current position. -/
def pTryAt (l : List Char) : Option (List Char) :=
  match pOpenRest l with
  | none => none
  | some rest => pCloseCapture rest

/-- Leftmost match of `/<p[^>]*>([\s\S]*?)<\/p>/i`: the captured group, or
`none`. -/
def pMatchFrom : List Char → Option (List Char)
  | [] => none
  | c :: cs =>
    match pTryAt (c :: cs) with
    | some cap => some cap
    | none => pMatchFrom cs

/-- `extractedTitle` in `publishArticle`: first heading's inner text, tags
stripped and trimmed; `null` when no heading element matches. -/
def extractedTitle (content : String) : Option String :=
  (hMatchFrom content.data).map fun cap => String.mk (trimWS (stripTags cap))

/-- `extractedDesc` in `publishArticle`: first paragraph's inner text, tags
stripped and trimmed; `null` when no paragraph element matches. -/
def extractedDescription (content : String) : Option String :=
  (pMatchFrom content.data).map fun cap => String.mk (trimWS (stripTags cap))

/-- `publishArticle`'s `aiData` argument is either a raw content string or a
structured rewrite result. -/
def finalContent : Sum String RewriteResult → String
  | .inl s => s
  | .inr r => r.content

/-- The body POSTed to `{base}/articles/{id}/ai-version`: `title` and
`description` are the extractor's derivation from the final content
(`Option` models the JS `null`), `content` is the final content, and
`references` is the `refs` array sent as a genuine array. -/
structure PublishPayload where
  title : Option String
  description : Option String
  content : String
  references : List String
deriving DecidableEq

/-- `publishArticle` from `src/index.js`, up to the network call: the payload
it sends for a given `aiData` and reference list. -/
def publishPayload (aiData : Sum String RewriteResult) (refs : List String) :
    PublishPayload :=
  { title := extractedTitle (finalContent aiData)
    description := extractedDescription (finalContent aiData)
    content := finalContent aiData
    references := refs }

/-! ## PipelineRunner (`main`) -/

/-- The article fetched from the content store. -/
structure Article where
  id : String
  title : String
  content : String
deriving DecidableEq

/-- One collaborator invocation made by `main`, in order. -/
inductive Event where
  | fetch : Event
  | search : String → Event
  | scrape : String → Event
  | rewriteCall : String → List String → List String → Event
  | publish : String → PublishPayload → Event
deriving DecidableEq

/-- How the run ends. -/
inductive Outcome where
  | abortFetch : Outcome
  | abortLinks : Outcome
  | abortAI : Outcome
  | published : String → PublishPayload → Outcome
deriving DecidableEq

/-- The external collaborators, as oracles: the fetched article, the search
response, the per-URL fetch result, and the inference call. -/
structure World where
  fetchRes : Except String Article
  searchRes : Except String (List SearchResult)
  scrapeRes : String → Except String (String × String × String)
  llmRes : ChatRequest → Except String String

/-- The `main` workflow from `src/index.js`: fetch, search, abort when fewer
than 2 links, scrape each link, rewrite, abort on `null`/empty content, then
publish.  Returns the trace of collaborator invocations and the outcome. -/
def runMain (w : World) : List Event × Outcome :=
  match w.fetchRes with
  | .error _ => ([Event.fetch], Outcome.abortFetch)
  | .ok article =>
    let links := googleSearch w.searchRes
    if links.length < 2 then
      ([Event.fetch, Event.search article.title], Outcome.abortLinks)
    else
      let refContents := links.map fun u => scrapeArticle (w.scrapeRes u)
      match rewriteWithAI article.content refContents links w.llmRes with
      | none =>
        ([Event.fetch, Event.search article.title] ++ links.map Event.scrape ++
          [Event.rewriteCall article.content refContents links], Outcome.abortAI)
      | some aiData =>
        if aiData.content = "" then
          ([Event.fetch, Event.search article.title] ++ links.map Event.scrape ++
            [Event.rewriteCall article.content refContents links], Outcome.abortAI)
        else
          let payload := publishPayload (Sum.inr aiData) links
          ([Event.fetch, Event.search article.title] ++ links.map Event.scrape ++
            [Event.rewriteCall article.content refContents links,
             Event.publish article.id payload],
           Outcome.published article.id payload)

/-- The URLs handed to the scraper during a run, in order. -/
def scrapedUrls (tr : List Event) : List String :=
  tr.filterMap fun e =>
    match e with
    | Event.scrape u => some u
    | _ => none

/-- A model response in the documented line format: the three markers each
on their own line with their segment. -/
def wfResponse (t d c : String) : String :=
  "TITLE: " ++ t ++ "\nDESCRIPTION: " ++ d ++ "\nCONTENT: " ++ c

/-- A concrete world whose search yields a single acceptable link. -/
def wFewLinks : World :=
  { fetchRes := Except.ok ⟨"1", "Topic", "Body"⟩
    searchRes := Except.ok [⟨"https://en.wikipedia.org/wiki/A"⟩, ⟨"https://ok.example.com/a"⟩]
    scrapeRes := fun _ => Except.error "unused"
    llmRes := fun _ => Except.error "unused" }

/-- A concrete world whose inference call fails. -/
def wNullAI : World :=
  { fetchRes := Except.ok ⟨"9", "Topic", "Body"⟩
    searchRes := Except.ok [⟨"https://ok1.example.com/a"⟩, ⟨"https://ok2.example.com/b"⟩]
    scrapeRes := fun _ => Except.ok ("", "", "")
    llmRes := fun _ => Except.error "LLM down" }

/-- A concrete world whose run reaches the publish stage: two acceptable
links, successful scrapes, and a well-formed model response whose rewritten
content is plain text (no heading or paragraph markup). -/
def wPub : World :=
  { fetchRes := Except.ok ⟨"7", "Topic", "Original body"⟩
    searchRes := Except.ok [⟨"https://a.example.com/x"⟩, ⟨"https://b.example.com/y"⟩]
    scrapeRes := fun _ => Except.ok ("ref text", "", "")
    llmRes := fun _ => Except.ok "TITLE: T\nDESCRIPTION: D\nCONTENT: Hello world" }

/-- The payload published in the `wPub` run. -/
def pPub : PublishPayload :=
  { title := none
    description := none
    content := "Hello world"
    references := ["https://a.example.com/x", "https://b.example.com/y"] }

/-- A concrete rewrite result whose content has no markup at all. -/
def noTagAiData : Sum String RewriteResult :=
  Sum.inr ⟨"t", "d", "Plain text with no markup"⟩

/-! ## Whitespace-normalization lemmas (for the scraper bound) -/

theorem noWSRun_cons_elim {a b : Char} {l : List Char}
    (h : noWSRun (a :: b :: l) = true) :
    (isWS a && isWS b) = false ∧ noWSRun (b :: l) = true := by
  have h' : (!(isWS a && isWS b) && noWSRun (b :: l)) = true := h
  rcases Bool.and_eq_true _ _ |>.mp h' with ⟨h1, h2⟩
  refine ⟨?_, h2⟩
  cases hab : (isWS a && isWS b)
  · rfl
  · rw [hab] at h1
    exact absurd h1 (by decide)

theorem noWSRun_tail {a : Char} {l : List Char} (h : noWSRun (a :: l) = true) :
    noWSRun l = true := by
  cases l with
  | nil => rfl
  | cons b r => exact (noWSRun_cons_elim h).2

theorem noWSRun_cons {a : Char} {l : List Char} (h : noWSRun l = true)
    (hh : ∀ b r, l = b :: r → (isWS a && isWS b) = false) :
    noWSRun (a :: l) = true := by
  cases l with
  | nil => rfl
  | cons b r =>
    have h1 := hh b r rfl
    show (!(isWS a && isWS b) && noWSRun (b :: r)) = true
    rw [h1, h]
    decide

theorem collapseWS_head : ∀ (c : Char) (cs : List Char),
    (collapseWS (c :: cs)).head? = some (if isWS c then ' ' else c) := by
  intro c cs
  induction cs generalizing c with
  | nil =>
    by_cases h : isWS c = true <;> simp [collapseWS, h]
  | cons b l ih =>
    cases hab : (isWS c && isWS b) with
    | true =>
      rcases Bool.and_eq_true _ _ |>.mp hab with ⟨hc, hb⟩
      have e1 : collapseWS (c :: b :: l) = collapseWS (b :: l) := by
        simp [collapseWS, hab]
      simp [e1, ih b, hb, hc]
    | false =>
      simp [collapseWS, hab]

theorem noWSRun_collapseWS : ∀ l : List Char, noWSRun (collapseWS l) = true := by
  intro l
  induction l with
  | nil => rfl
  | cons a l ih =>
    cases l with
    | nil =>
      by_cases h : isWS a = true <;> simp [collapseWS, h, noWSRun]
    | cons b r =>
      cases hab : (isWS a && isWS b) with
      | true =>
        have heq : collapseWS (a :: b :: r) = collapseWS (b :: r) := by
          simp [collapseWS, hab]
        rw [heq]; exact ih
      | false =>
        have heq : collapseWS (a :: b :: r) =
            (if isWS a then ' ' else a) :: collapseWS (b :: r) := by
          simp [collapseWS, hab]
        rw [heq]
        apply noWSRun_cons ih
        intro d rr hd
        have hh := collapseWS_head b r
        rw [hd] at hh
        have hdb : d = if isWS b then ' ' else b := by simpa using hh
        cases ha : isWS a with
        | false => simp [ha]
        | true =>
          have hb : isWS b = false := by
            cases hbv : isWS b
            · rfl
            · rw [ha, hbv] at hab; cases hab
          subst hdb
          simp [ha, hb]

theorem noWSRun_dropWhile (p : Char → Bool) :
    ∀ l : List Char, noWSRun l = true → noWSRun (l.dropWhile p) = true := by
  intro l
  induction l with
  | nil => intro h; simpa using h
  | cons a l ih =>
    intro h
    by_cases hp : p a = true
    · rw [List.dropWhile_cons_of_pos hp]
      exact ih (noWSRun_tail h)
    · rw [List.dropWhile_cons_of_neg hp]
      exact h

theorem dropTrailingWS_head {l : List Char} {b : Char} {r : List Char}
    (h : dropTrailingWS l = b :: r) : l.head? = some b := by
  cases l with
  | nil => cases h
  | cons a l' =>
    cases hd : dropTrailingWS l' with
    | nil =>
      rw [dropTrailingWS, hd] at h
      by_cases ha : isWS a = true
      · simp [ha] at h
      · simp [ha] at h
        simp [h.1]
    | cons c rr =>
      rw [dropTrailingWS, hd] at h
      injection h with h1 _
      simp [h1]

theorem noWSRun_dropTrailingWS :
    ∀ l : List Char, noWSRun l = true → noWSRun (dropTrailingWS l) = true := by
  intro l
  induction l with
  | nil => intro h; simpa using h
  | cons a l' ih =>
    intro h
    cases hd : dropTrailingWS l' with
    | nil =>
      rw [dropTrailingWS, hd]
      by_cases ha : isWS a = true <;> simp [ha, noWSRun]
    | cons b rr =>
      rw [dropTrailingWS, hd]
      have hb : l'.head? = some b := dropTrailingWS_head hd
      cases l' with
      | nil => cases hb
      | cons c t =>
        have hcb : c = b := by simpa using hb
        subst hcb
        apply noWSRun_cons
        · rw [← hd]; exact ih (noWSRun_tail h)
        · intro d rrr heq
          injection heq with h1 _
          subst h1
          exact (noWSRun_cons_elim h).1

theorem noWSRun_take :
    ∀ (n : Nat) (l : List Char), noWSRun l = true → noWSRun (l.take n) = true := by
  intro n l
  induction l generalizing n with
  | nil => intro h; simpa using h
  | cons a l' ih =>
    intro h
    cases n with
    | zero => rfl
    | succ m =>
      rw [List.take_succ_cons]
      apply noWSRun_cons (ih m (noWSRun_tail h))
      intro b r heq
      cases l' with
      | nil => simp at heq
      | cons c t =>
        cases m with
        | zero => simp at heq
        | succ k =>
          rw [List.take_succ_cons] at heq
          injection heq with h1 _
          subst h1
          exact (noWSRun_cons_elim h).1

/-! ## Claim theorems: scraper and collector -/

/-- C8: for every fetch outcome, the string returned by `scrapeArticle` has
length at most 4000 characters and contains no run of two or more
consecutive whitespace characters. -/
theorem scrape_output_bounded (res : Except String (String × String × String)) :
    (scrapeArticle res).length ≤ 4000 ∧ noWSRun (scrapeArticle res).data = true := by
  cases res with
  | error e =>
    constructor
    · show ("" : String).length ≤ 4000
      decide
    · show noWSRun ("" : String).data = true
      rfl
  | ok t =>
    obtain ⟨a, m, b⟩ := t
    constructor
    · show ((trimWS (collapseWS (pickText a m b).data)).take 4000).length ≤ 4000
      simp [List.length_take]
    · show noWSRun ((trimWS (collapseWS (pickText a m b).data)).take 4000) = true
      exact noWSRun_take 4000 _ (noWSRun_dropTrailingWS _
        (noWSRun_dropWhile isWS _ (noWSRun_collapseWS _)))

/-- C9: on any fetch error, `scrapeArticle` returns exactly the empty string;
being a total function of the fetch outcome, it never raises. -/
theorem scrape_error_empty (e : String) : scrapeArticle (Except.error e) = "" := rfl

/-- C7: on a successful search response, `googleSearch` returns at most 2
URLs, every returned URL satisfies the link filter, and the returned URLs
are a sublist of the provider's links in original ranking order. -/
theorem collect_bounded_filtered_ordered (organic : List SearchResult) :
    (googleSearch (Except.ok organic)).length ≤ 2 ∧
    (∀ u ∈ googleSearch (Except.ok organic), isValidBlogLink u = true) ∧
    (googleSearch (Except.ok organic)).Sublist (organic.map fun r => r.link) := by
  refine ⟨?_, ?_, ?_⟩
  · simp [googleSearch, List.length_take]
  · intro u hu
    simp only [googleSearch] at hu
    exact List.of_mem_filter (List.mem_of_mem_take hu)
  · simp only [googleSearch]
    exact (List.take_sublist _ _).trans (List.filter_sublist _)

/-- C7 witness: on a concrete 4-result response with one excluded domain,
the second result is returned and passes the filter. -/
theorem collect_witness : isValidBlogLink "https://blog.example.com/a" = true :=
  (collect_bounded_filtered_ordered
    [⟨"https://en.wikipedia.org/wiki/A"⟩, ⟨"https://blog.example.com/a"⟩,
     ⟨"https://b.example.org/c"⟩, ⟨"https://d.example.net"⟩]).2.1
    "https://blog.example.com/a" (by decide)

/-- C4: the chat request (and hence the whole rewrite outcome) does not
depend on the scraped reference texts: two calls with the same original and
URLs but different reference-text lists build identical prompts, and the
user message is exactly the first 800 characters of the original plus the
comma-joined URL list. -/
theorem rewrite_prompt_independent_of_refs (original : String)
    (urls refs1 refs2 : List String) (llm : ChatRequest → Except String String) :
    rewriteRequest original refs1 urls = rewriteRequest original refs2 urls ∧
    rewriteWithAI original refs1 urls llm = rewriteWithAI original refs2 urls llm ∧
    (rewriteRequest original refs1 urls).user =
      "Rewrite this: " ++ original.take 800 ++ ". Refs: " ++ String.intercalate ", " urls :=
  ⟨rfl, rfl, rfl⟩

/-! ## Pipeline branch analysis -/

/-- Exhaustive description of the five control-flow outcomes of `runMain`. -/
theorem runMain_cases (w : World) :
    (∃ msg, w.fetchRes = Except.error msg ∧
      runMain w = ([Event.fetch], Outcome.abortFetch)) ∨
    (∃ article, w.fetchRes = Except.ok article ∧
      (googleSearch w.searchRes).length < 2 ∧
      runMain w = ([Event.fetch, Event.search article.title], Outcome.abortLinks)) ∨
    (∃ article, w.fetchRes = Except.ok article ∧
      2 ≤ (googleSearch w.searchRes).length ∧
      rewriteWithAI article.content
        ((googleSearch w.searchRes).map fun u => scrapeArticle (w.scrapeRes u))
        (googleSearch w.searchRes) w.llmRes = none ∧
      runMain w = ([Event.fetch, Event.search article.title] ++
        (googleSearch w.searchRes).map Event.scrape ++
        [Event.rewriteCall article.content
          ((googleSearch w.searchRes).map fun u => scrapeArticle (w.scrapeRes u))
          (googleSearch w.searchRes)], Outcome.abortAI)) ∨
    (∃ article aiData, w.fetchRes = Except.ok article ∧
      2 ≤ (googleSearch w.searchRes).length ∧
      rewriteWithAI article.content
        ((googleSearch w.searchRes).map fun u => scrapeArticle (w.scrapeRes u))
        (googleSearch w.searchRes) w.llmRes = some aiData ∧
      aiData.content = "" ∧
      runMain w = ([Event.fetch, Event.search article.title] ++
        (googleSearch w.searchRes).map Event.scrape ++
        [Event.rewriteCall article.content
          ((googleSearch w.searchRes).map fun u => scrapeArticle (w.scrapeRes u))
          (googleSearch w.searchRes)], Outcome.abortAI)) ∨
    (∃ article aiData, w.fetchRes = Except.ok article ∧
      2 ≤ (googleSearch w.searchRes).length ∧
      rewriteWithAI article.content
        ((googleSearch w.searchRes).map fun u => scrapeArticle (w.scrapeRes u))
        (googleSearch w.searchRes) w.llmRes = some aiData ∧
      aiData.content ≠ "" ∧
      runMain w = ([Event.fetch, Event.search article.title] ++
        (googleSearch w.searchRes).map Event.scrape ++
        [Event.rewriteCall article.content
          ((googleSearch w.searchRes).map fun u => scrapeArticle (w.scrapeRes u))
          (googleSearch w.searchRes),
         Event.publish article.id
          (publishPayload (Sum.inr aiData) (googleSearch w.searchRes))],
        Outcome.published article.id
          (publishPayload (Sum.inr aiData) (googleSearch w.searchRes)))) := by
  cases hf : w.fetchRes with
  | error msg =>
    exact Or.inl ⟨msg, rfl, by simp [runMain, hf]⟩
  | ok article =>
    by_cases hl : (googleSearch w.searchRes).length < 2
    · exact Or.inr (Or.inl ⟨article, rfl, hl, by simp [runMain, hf, hl]⟩)
    · have hl' : 2 ≤ (googleSearch w.searchRes).length := Nat.not_lt.mp hl
      cases hr : rewriteWithAI article.content
          ((googleSearch w.searchRes).map fun u => scrapeArticle (w.scrapeRes u))
          (googleSearch w.searchRes) w.llmRes with
      | none =>
        exact Or.inr (Or.inr (Or.inl ⟨article, rfl, hl', hr,
          by simp [runMain, hf, hl, hr]⟩))
      | some aiData =>
        by_cases hc : aiData.content = ""
        · exact Or.inr (Or.inr (Or.inr (Or.inl ⟨article, aiData, rfl, hl', hr, hc,
            by simp [runMain, hf, hl, hr, hc]⟩)))
        · exact Or.inr (Or.inr (Or.inr (Or.inr ⟨article, aiData, rfl, hl', hr, hc,
            by simp [runMain, hf, hl, hr, hc]⟩)))

theorem scrapedUrls_append (a b : List Event) :
    scrapedUrls (a ++ b) = scrapedUrls a ++ scrapedUrls b :=
  List.filterMap_append _ _ _

theorem scrapedUrls_map (links : List String) :
    scrapedUrls (links.map Event.scrape) = links := by
  induction links with
  | nil => rfl
  | cons u t ih => simpa [scrapedUrls, List.filterMap_cons] using ih

/-! ## Claim theorems: pipeline -/

/-- C5: when fewer than 2 acceptable links are collected, the pipeline
aborts at the collect stage: the trace contains no scrape call and no
rewrite call. -/
theorem insufficient_links_aborts (w : World)
    (h : (googleSearch w.searchRes).length < 2) :
    ∀ e ∈ (runMain w).1,
      (∀ u, e ≠ Event.scrape u) ∧ (∀ o r us, e ≠ Event.rewriteCall o r us) := by
  intro e he
  rcases runMain_cases w with ⟨msg, _, hrun⟩ | ⟨article, _, _, hrun⟩ |
    ⟨article, _, hl, _, _⟩ | ⟨article, aiData, _, hl, _, _, _⟩ |
    ⟨article, aiData, _, hl, _, _, _⟩
  · rw [hrun] at he
    refine ⟨fun u hu => ?_, fun o r us hq => ?_⟩
    · subst hu; simp at he
    · subst hq; simp at he
  · rw [hrun] at he
    refine ⟨fun u hu => ?_, fun o r us hq => ?_⟩
    · subst hu; simp at he
    · subst hq; simp at he
  · omega
  · omega
  · omega

theorem insufficient_links_aborts_witness :
    Event.fetch ≠ Event.scrape "https://ok.example.com/a" :=
  (insufficient_links_aborts wFewLinks (by decide) Event.fetch (by decide)).1
    "https://ok.example.com/a"

/-- C6: in every run in which the Rewriter yields `null` or a result with
empty content, the publish collaborator is never invoked. -/
theorem rewrite_failure_no_publish (w : World)
    (h : ∀ article aiData, w.fetchRes = Except.ok article →
      rewriteWithAI article.content
        ((googleSearch w.searchRes).map fun u => scrapeArticle (w.scrapeRes u))
        (googleSearch w.searchRes) w.llmRes = some aiData →
      aiData.content = "") :
    ∀ e ∈ (runMain w).1, ∀ id p, e ≠ Event.publish id p := by
  intro e he id p
  rcases runMain_cases w with ⟨msg, _, hrun⟩ | ⟨article, _, _, hrun⟩ |
    ⟨article, _, _, _, hrun⟩ | ⟨article, aiData, _, _, _, _, hrun⟩ |
    ⟨article, aiData, hf, _, hr, hc, hrun⟩
  · rw [hrun] at he
    intro hq; subst hq; simp at he
  · rw [hrun] at he
    intro hq; subst hq; simp at he
  · rw [hrun] at he
    intro hq; subst hq; simp at he
  · rw [hrun] at he
    intro hq; subst hq; simp at he
  · exact absurd (h article aiData hf hr) hc

theorem rewrite_failure_no_publish_witness :
    Event.fetch ≠ Event.publish "9" (publishPayload (Sum.inl "x") []) :=
  rewrite_failure_no_publish wNullAI
    (by
      intro article aiData hf hr
      simp [rewriteWithAI, wNullAI] at hr)
    Event.fetch (by decide) "9" (publishPayload (Sum.inl "x") [])

/-- C3: in every run, the URLs handed to the scraper, the URL list passed to
the Rewriter (and joined into its prompt), and the references array of any
published payload are all the single list produced by `googleSearch` — no
element is added, dropped, recomputed, or re-filtered between stages. -/
theorem references_consistent (w : World) :
    (scrapedUrls (runMain w).1 = googleSearch w.searchRes ∨
      scrapedUrls (runMain w).1 = []) ∧
    (∀ o r us, Event.rewriteCall o r us ∈ (runMain w).1 →
      us = googleSearch w.searchRes ∧
      r = (googleSearch w.searchRes).map fun u => scrapeArticle (w.scrapeRes u)) ∧
    (∀ id p, Event.publish id p ∈ (runMain w).1 →
      p.references = googleSearch w.searchRes) := by
  rcases runMain_cases w with ⟨msg, _, hrun⟩ | ⟨article, _, _, hrun⟩ |
    ⟨article, _, _, _, hrun⟩ | ⟨article, aiData, _, _, _, _, hrun⟩ |
    ⟨article, aiData, _, _, _, _, hrun⟩ <;> rw [hrun]
  · refine ⟨Or.inr rfl, ?_, ?_⟩
    · intro o r us hmem
      simp at hmem
    · intro id p hmem
      simp at hmem
  · refine ⟨Or.inr rfl, ?_, ?_⟩
    · intro o r us hmem
      simp at hmem
    · intro id p hmem
      simp at hmem
  · refine ⟨Or.inl ?_, ?_, ?_⟩
    · simp only [scrapedUrls_append, scrapedUrls_map]
      simp [scrapedUrls]
    · intro o r us hmem
      simp at hmem
      exact ⟨hmem.2.2, hmem.2.1⟩
    · intro id p hmem
      simp at hmem
  · refine ⟨Or.inl ?_, ?_, ?_⟩
    · simp only [scrapedUrls_append, scrapedUrls_map]
      simp [scrapedUrls]
    · intro o r us hmem
      simp at hmem
      exact ⟨hmem.2.2, hmem.2.1⟩
    · intro id p hmem
      simp at hmem
  · refine ⟨Or.inl ?_, ?_, ?_⟩
    · simp only [scrapedUrls_append, scrapedUrls_map]
      simp [scrapedUrls]
    · intro o r us hmem
      simp at hmem
      exact ⟨hmem.2.2, hmem.2.1⟩
    · intro id p hmem
      simp at hmem
      rw [hmem.2]
      rfl

/-- C3 witness: in the concrete `wPub` run, the published references array
is exactly the collected link list. -/
theorem references_consistent_witness :
    pPub.references = googleSearch wPub.searchRes :=
  (references_consistent wPub).2.2 "7" pPub (by decide)

/-- C1 (amended): every payload that reaches the publish collaborator
carries the MetadataExtractor's derivation from the final content as its
title and description — the Rewriter's own title/description fields are
never consulted (payloads for rewrite results with equal content are
equal). -/
theorem publish_metadata_from_extractor :
    (∀ (w : World) (id : String) (p : PublishPayload),
      Event.publish id p ∈ (runMain w).1 →
      p.title = extractedTitle p.content ∧
      p.description = extractedDescription p.content) ∧
    (∀ (r1 r2 : RewriteResult) (refs : List String), r1.content = r2.content →
      publishPayload (Sum.inr r1) refs = publishPayload (Sum.inr r2) refs) := by
  constructor
  · intro w id p hmem
    rcases runMain_cases w with ⟨msg, _, hrun⟩ | ⟨article, _, _, hrun⟩ |
      ⟨article, _, _, _, hrun⟩ | ⟨article, aiData, _, _, _, _, hrun⟩ |
      ⟨article, aiData, _, _, _, _, hrun⟩ <;> rw [hrun] at hmem <;> simp at hmem
    rw [hmem.2]
    exact ⟨rfl, rfl⟩
  · intro r1 r2 refs hc
    simp [publishPayload, finalContent, hc]

/-- C1 counterexample: in the concrete `wPub` run the Rewriter's parsed
title is the non-empty string `"T"`, yet the payload sent to the content
store carries `title = none` — not the Rewriter's title. -/
theorem publish_ignores_rewriter_metadata_cex :
    (rewriteParse "TITLE: T\nDESCRIPTION: D\nCONTENT: Hello world").title = "T" ∧
    (runMain wPub).2 = Outcome.published "7" pPub ∧
    pPub.title = none ∧ (none : Option String) ≠ some "T" := by
  refine ⟨by decide, by decide, rfl, by decide⟩

/-- C1 witness: the concrete published payload of the `wPub` run has the
extractor's (null) metadata. -/
theorem publish_metadata_from_extractor_witness :
    pPub.title = extractedTitle pPub.content ∧
    pPub.description = extractedDescription pPub.content :=
  publish_metadata_from_extractor.1 wPub "7" pPub (by decide)

/-- C10: whenever the heading matcher finds no `h1`/`h2` element in the
final content, `publishArticle` sends `title = null` (not a default string)
in the POST payload, and likewise `description = null` when no paragraph
element matches — so null metadata reaches the external store. -/
theorem publish_null_metadata (aiData : Sum String RewriteResult) (refs : List String) :
    (hMatchFrom (finalContent aiData).data = none →
      (publishPayload aiData refs).title = none) ∧
    (pMatchFrom (finalContent aiData).data = none →
      (publishPayload aiData refs).description = none) := by
  constructor
  · intro h
    simp [publishPayload, extractedTitle, h]
  · intro h
    simp [publishPayload, extractedDescription, h]

theorem publish_null_metadata_witness :
    hMatchFrom (finalContent noTagAiData).data = none ∧
    (publishPayload noTagAiData ["https://a.example.com/x"]).title = none :=
  ⟨by decide,
   (publish_null_metadata noTagAiData ["https://a.example.com/x"]).1 (by decide)⟩

/-! ## Marker-scanning lemmas (for the Rewriter parse) -/

theorem hasSubCI_none {pat text : List Char} (h : hasSubCI pat text = false) :
    restAfterCI pat text = none := by
  cases hv : restAfterCI pat text with
  | none => rfl
  | some r =>
    unfold hasSubCI at h
    rw [hv] at h
    simp at h

theorem isPrefixCI_append_true {pat s : List Char} (l : List Char)
    (h : isPrefixCI pat s = true) : isPrefixCI pat (s ++ l) = true := by
  induction pat generalizing s with
  | nil => rfl
  | cons p ps ih =>
    cases s with
    | nil => exact Bool.noConfusion h
    | cons x xs =>
      have h' : ((p.toLower == x.toLower) && isPrefixCI ps xs) = true := h
      rcases Bool.and_eq_true _ _ |>.mp h' with ⟨h1, h2⟩
      show ((p.toLower == x.toLower) && isPrefixCI ps (xs ++ l)) = true
      rw [h1, ih h2]
      rfl

theorem isPrefixCI_extend_false (l : List Char) :
    ∀ pat s : List Char, (∀ ch ∈ pat, ch.toLower ≠ '\n') →
      isPrefixCI pat s = false →
      isPrefixCI pat (s ++ '\n' :: l) = false := by
  intro pat
  induction pat with
  | nil =>
    intro s _ h
    exact Bool.noConfusion h
  | cons p ps ih =>
    intro s hnl h
    have hp : p.toLower ≠ '\n' := hnl p (List.mem_cons_self _ _)
    have hbeq : (p.toLower == '\n') = false := by
      cases hv : p.toLower == '\n'
      · rfl
      · exact absurd (by simpa using hv) hp
    cases s with
    | nil =>
      show ((p.toLower == '\n'.toLower) && isPrefixCI ps l) = false
      rw [show '\n'.toLower = '\n' from by decide, hbeq]
      rfl
    | cons x xs =>
      have h' : ((p.toLower == x.toLower) && isPrefixCI ps xs) = false := h
      show ((p.toLower == x.toLower) && isPrefixCI ps (xs ++ '\n' :: l)) = false
      cases hv : (p.toLower == x.toLower)
      · rfl
      · rw [hv] at h'
        have h2 : isPrefixCI ps xs = false := by simpa using h'
        rw [ih xs (fun ch hch => hnl ch (List.mem_cons_of_mem _ hch)) h2]
        rfl

theorem restAfterCI_skip (l : List Char) {pat : List Char} (hne : pat ≠ [])
    (hnl : ∀ ch ∈ pat, ch.toLower ≠ '\n') :
    ∀ p : List Char, restAfterCI pat p = none →
      restAfterCI pat (p ++ '\n' :: l) = restAfterCI pat l := by
  intro p
  induction p with
  | nil =>
    intro _
    obtain ⟨q, qs, rfl⟩ := List.exists_cons_of_ne_nil hne
    have hq : q.toLower ≠ '\n' := hnl q (List.mem_cons_self _ _)
    have hcond : isPrefixCI (q :: qs) ('\n' :: l) = false := by
      show ((q.toLower == '\n'.toLower) && isPrefixCI qs l) = false
      rw [show '\n'.toLower = '\n' from by decide]
      have hbeq : (q.toLower == '\n') = false := by
        cases hv : q.toLower == '\n'
        · rfl
        · exact absurd (by simpa using hv) hq
      rw [hbeq]
      rfl
    have step : restAfterCI (q :: qs) ('\n' :: l) =
        if isPrefixCI (q :: qs) ('\n' :: l) = true then
          some (List.drop (q :: qs).length ('\n' :: l))
        else restAfterCI (q :: qs) l := rfl
    show restAfterCI (q :: qs) ([] ++ '\n' :: l) = restAfterCI (q :: qs) l
    rw [List.nil_append, step, hcond, if_neg (by decide)]
  | cons a p' ih =>
    intro hnone
    have step0 : restAfterCI pat (a :: p') =
        if isPrefixCI pat (a :: p') = true then
          some (List.drop pat.length (a :: p'))
        else restAfterCI pat p' := rfl
    rw [step0] at hnone
    have hcond : isPrefixCI pat (a :: p') = false := by
      cases hv : isPrefixCI pat (a :: p')
      · rfl
      · rw [hv] at hnone
        simp at hnone
    rw [hcond] at hnone
    have hrec : restAfterCI pat p' = none := by simpa using hnone
    have hext := isPrefixCI_extend_false l pat (a :: p') hnl hcond
    rw [List.cons_append] at hext
    have step1 : restAfterCI pat (a :: (p' ++ '\n' :: l)) =
        if isPrefixCI pat (a :: (p' ++ '\n' :: l)) = true then
          some (List.drop pat.length (a :: (p' ++ '\n' :: l)))
        else restAfterCI pat (p' ++ '\n' :: l) := rfl
    show restAfterCI pat (a :: (p' ++ '\n' :: l)) = restAfterCI pat l
    rw [step1, hext, if_neg (by decide)]
    exact ih hrec

theorem takeWhile_notNL_append (r : List Char) :
    ∀ t : List Char, t.all notNL = true → (t ++ '\n' :: r).takeWhile notNL = t := by
  intro t
  induction t with
  | nil =>
    intro _
    show ('\n' :: r).takeWhile notNL = []
    exact List.takeWhile_cons_of_neg (by decide)
  | cons a t' ih =>
    intro h
    have h' : (notNL a && t'.all notNL) = true := h
    rcases Bool.and_eq_true _ _ |>.mp h' with ⟨h1, h2⟩
    show ((a :: (t' ++ '\n' :: r)).takeWhile notNL) = a :: t'
    rw [List.takeWhile_cons_of_pos h1, ih h2]

/-- C2 (amended): on a response in the documented line format — non-empty
segments starting with a non-whitespace character, title/description free
of line terminators, and no marker word occurring before its own line —
`rewriteParse` returns the three segments exactly as they stand after the
marker and its following whitespace (leading whitespace skipped, trailing
whitespace NOT trimmed); on a response containing none of the three markers
it returns the fixed default title and description and the full raw text as
content. -/
theorem rewrite_parse_exact :
    (∀ t d c : String,
      t.data ≠ [] → d.data ≠ [] → c.data ≠ [] →
      isWS (t.data.headD 'x') = false →
      isWS (d.data.headD 'x') = false →
      isWS (c.data.headD 'x') = false →
      t.data.all notNL = true → d.data.all notNL = true →
      hasSubCI "description:".data ("TITLE: " ++ t).data = false →
      hasSubCI "content:".data ("TITLE: " ++ t ++ "\nDESCRIPTION: " ++ d).data = false →
      rewriteParse (wfResponse t d c) = ⟨t, d, c⟩) ∧
    (∀ text : String,
      hasSubCI "title:".data text.data = false →
      hasSubCI "description:".data text.data = false →
      hasSubCI "content:".data text.data = false →
      rewriteParse text = ⟨defaultTitle, defaultDescription, text⟩) := by
  constructor
  · intro t d c ht0 hd0 hc0 htw hdw hcw htn hdn hdm hcm
    obtain ⟨a, t', hte⟩ := List.exists_cons_of_ne_nil ht0
    obtain ⟨b, d', hde⟩ := List.exists_cons_of_ne_nil hd0
    obtain ⟨e, c', hce⟩ := List.exists_cons_of_ne_nil hc0
    rw [hte] at htw
    rw [hde] at hdw
    rw [hce] at hcw
    simp only [List.headD_cons] at htw hdw hcw
    have e_text : (wfResponse t d c).data =
        "TITLE: ".data ++ (t.data ++ ('\n' ::
          ("DESCRIPTION: ".data ++ (d.data ++ ('\n' ::
            ("CONTENT: ".data ++ c.data)))))) := by
      simp only [wfResponse, String.data_append,
        show "\nDESCRIPTION: ".data = '\n' :: "DESCRIPTION: ".data from by decide,
        show "\nCONTENT: ".data = '\n' :: "CONTENT: ".data from by decide,
        List.cons_append, List.append_assoc]
    have hrest_t : restAfterCI "title:".data ((wfResponse t d c).data) =
        some (' ' :: (t.data ++ ('\n' ::
          ("DESCRIPTION: ".data ++ (d.data ++ ('\n' ::
            ("CONTENT: ".data ++ c.data))))))) := by
      rw [e_text, show "TITLE: ".data = ['T','I','T','L','E',':',' '] from by decide]
      rfl
    have title_eq : matchLine "title:".data ((wfResponse t d c).data) = some t.data := by
      simp only [matchLine, hrest_t, Option.map_some']
      rw [List.dropWhile_cons_of_pos (by decide : isWS ' ' = true)]
      rw [hte, List.cons_append, List.dropWhile_cons_of_neg (by simp [htw]),
        ← List.cons_append, ← hte]
      rw [takeWhile_notNL_append _ t.data htn]
    have hdm' : restAfterCI "description:".data ("TITLE: ".data ++ t.data) = none := by
      apply hasSubCI_none
      rwa [String.data_append] at hdm
    have e_text2 : (wfResponse t d c).data =
        ("TITLE: ".data ++ t.data) ++ ('\n' ::
          ("DESCRIPTION: ".data ++ (d.data ++ ('\n' ::
            ("CONTENT: ".data ++ c.data))))) := by
      rw [e_text, List.append_assoc]
    have hskip_d : restAfterCI "description:".data ((wfResponse t d c).data) =
        restAfterCI "description:".data
          ("DESCRIPTION: ".data ++ (d.data ++ ('\n' ::
            ("CONTENT: ".data ++ c.data)))) := by
      rw [e_text2]
      exact restAfterCI_skip _ (by decide) (by decide) _ hdm'
    have hrest_d : restAfterCI "description:".data
        ("DESCRIPTION: ".data ++ (d.data ++ ('\n' ::
          ("CONTENT: ".data ++ c.data)))) =
        some (' ' :: (d.data ++ ('\n' :: ("CONTENT: ".data ++ c.data)))) := by
      rw [show "DESCRIPTION: ".data = ['D','E','S','C','R','I','P','T','I','O','N',':',' ']
        from by decide]
      rfl
    have desc_eq : matchLine "description:".data ((wfResponse t d c).data) =
        some d.data := by
      simp only [matchLine, hskip_d, hrest_d, Option.map_some']
      rw [List.dropWhile_cons_of_pos (by decide : isWS ' ' = true)]
      rw [hde, List.cons_append, List.dropWhile_cons_of_neg (by simp [hdw]),
        ← List.cons_append, ← hde]
      rw [takeWhile_notNL_append _ d.data hdn]
    have hcm' : restAfterCI "content:".data
        (("TITLE: ".data ++ t.data) ++ ('\n' ::
          ("DESCRIPTION: ".data ++ d.data))) = none := by
      apply hasSubCI_none
      have e3 : ("TITLE: " ++ t ++ "\nDESCRIPTION: " ++ d).data =
          ("TITLE: ".data ++ t.data) ++ ('\n' :: ("DESCRIPTION: ".data ++ d.data)) := by
        simp only [String.data_append,
          show "\nDESCRIPTION: ".data = '\n' :: "DESCRIPTION: ".data from by decide,
          List.cons_append, List.append_assoc]
      rwa [e3] at hcm
    have e_text3 : (wfResponse t d c).data =
        (("TITLE: ".data ++ t.data) ++ ('\n' ::
          ("DESCRIPTION: ".data ++ d.data))) ++
          ('\n' :: ("CONTENT: ".data ++ c.data)) := by
      rw [e_text]
      simp only [List.cons_append, List.append_assoc]
    have hskip_c : restAfterCI "content:".data ((wfResponse t d c).data) =
        restAfterCI "content:".data ("CONTENT: ".data ++ c.data) := by
      rw [e_text3]
      exact restAfterCI_skip _ (by decide) (by decide) _ hcm'
    have hrest_c : restAfterCI "content:".data ("CONTENT: ".data ++ c.data) =
        some (' ' :: c.data) := by
      rw [show "CONTENT: ".data = ['C','O','N','T','E','N','T',':',' '] from by decide]
      rfl
    have cont_eq : matchAll "content:".data ((wfResponse t d c).data) = some c.data := by
      simp only [matchAll, hskip_c, hrest_c, Option.map_some']
      rw [List.dropWhile_cons_of_pos (by decide : isWS ' ' = true)]
      rw [hce, List.dropWhile_cons_of_neg (by simp [hcw]), ← hce]
    show rewriteParse (wfResponse t d c) = ⟨t, d, c⟩
    simp only [rewriteParse, title_eq, desc_eq, cont_eq, orDefault]
    rw [if_neg ht0, if_neg hd0, if_neg hc0]
  · intro text h1 h2 h3
    have r1 := hasSubCI_none h1
    have r2 := hasSubCI_none h2
    have r3 := hasSubCI_none h3
    show rewriteParse text = ⟨defaultTitle, defaultDescription, text⟩
    simp only [rewriteParse, matchLine, matchAll, r1, r2, r3, Option.map_none', orDefault]

/-- C2 counterexample: the code does not trim trailing whitespace — on
`"TITLE: Foo \n..."` the title line's segment, trimmed, is `"Foo"`, but the
parser returns `"Foo "` verbatim (trailing space preserved). -/
theorem rewrite_parse_trim_cex :
    (rewriteParse "TITLE: Foo \nDESCRIPTION: Bar\nCONTENT: Baz").title = "Foo " ∧
    String.mk (trimWS "Foo ".data) = "Foo" ∧ ("Foo " : String) ≠ "Foo" :=
  ⟨by decide, by decide, by decide⟩

/-- C2 witness: a concrete well-formed response is parsed into exactly its
three segments. -/
theorem rewrite_parse_exact_witness :
    rewriteParse (wfResponse "Foo" "Bar" "<p>Hi</p>") =
      { title := "Foo", description := "Bar", content := "<p>Hi</p>" } :=
  rewrite_parse_exact.1 "Foo" "Bar" "<p>Hi</p>" (by decide) (by decide) (by decide)
    (by decide) (by decide) (by decide) (by decide) (by decide) (by decide) (by decide)

end AiArticle
